import Mathlib

/-
Verification of the Arrow IPC stream writer (arrow/ipc/writer.go):
a shallow embedding of the record-to-payload encoder and the stream
writer, with theorems about schema validation, buffer truncation,
list re-slicing, payload alignment, recursion-depth limiting and the
writer close protocol.
-/

namespace ArrowIPC

/-- A reference-counted byte buffer; we model only what the writer reads:
an identity and the byte length (`memory.Buffer.Len`). -/
structure Buffer where
  id : Nat
  len : Nat
deriving DecidableEq, Repr

/-- Failure outcomes of the writer.  Go panics (`panic("not implemented")`,
nil dereferences, the alignment assertion) are modelled as error values,
since a panic aborts the computation just as an early error return does. -/
inductive Err where
  | inconsistentSchema
  | maxRecursion
  | bigArray
  | notImplemented (site : String)
  | nilBuffer
  | nilPayloadWriter
  | notAligned
deriving DecidableEq, Repr

/-- Modelled from the spec: AlignmentMath padding boundary, "padded length
to a fixed alignment boundary (8 bytes)" (spec section 2); the constant
itself lives outside the provided source file. -/
def kArrowAlignment : Int := 8

/-- Modelled from the spec: "Padded length: a buffer's logical byte length
rounded up to the next 8-byte boundary" (glossary); helper outside src. -/
def paddedLength (nbytes align : Int) : Int :=
  ((nbytes + align - 1) / align) * align

/-- Modelled from the spec: bit-count-to-byte-count conversion for validity
bitmaps (spec section 2); `bitutil.BytesForBits`, outside src. -/
def bytesForBits (bits : Int) : Int := (bits + 7) / 8

/-- Modelled from the spec: padded length helper `bitutil.CeilByte64`
(round a byte count up to the next multiple of 8), outside src. -/
def ceilByte64 (sz : Int) : Int := ((sz + 7) / 8) * 8

/-- Modelled from the spec: `bitutil.IsMultipleOf8`, outside src. -/
def isMultipleOf8 (v : Int) : Bool := v % 8 == 0

/-- Modelled from the spec: "depth bound = a fixed constant, e.g. 64"
(spec section 4.5); the constant is defined outside src. -/
def kMaxNestingDepth : Int := 64

/-- `math.MaxInt32`. -/
def maxInt32 : Nat := 2147483647

/-- `needTruncate` (writer.go:418-423): a nil buffer never needs a copy;
otherwise copy when the physical offset is nonzero or the buffer is longer
than the minimum required length. -/
def needTruncate (offset : Int) (buf : Option Buffer) (minLength : Int) : Bool :=
  match buf with
  | none => false
  | some b => offset != 0 || minLength < (b.len : Int)

/-- `newTruncatedBitmap` (writer.go:401-416), transcribed as written: the
guard is `if input != nil`, which retains and returns every non-nil input
immediately; the remaining switch is reached only with a nil input, where
`offset != 0` short-circuits to the unimplemented-copy panic and otherwise
the evaluation of `input.Len()` dereferences the nil buffer. -/
def newTruncatedBitmap (offset length : Int) (input : Option Buffer) :
    Except Err Buffer :=
  match input with
  | some b => .ok b
  | none =>
    let _minLength := paddedLength (bytesForBits length) kArrowAlignment
    if offset != 0 then .error (.notImplemented "truncated-bitmap-copy")
    else .error .nilBuffer

/-- `recordEncoder.getZeroBasedValueOffsets` (writer.go:384-394): nonzero
physical offset panics "not implemented"; otherwise the offsets buffer is
retained and returned unmodified.  The buffer travels as an `Option` as in
the spec's `Result<Option<Buffer>>` contract (section 4.3). -/
def getZeroBasedValueOffsets (offset : Nat) (voffsets : Option Buffer) :
    Except Err (Option Buffer) :=
  if offset ≠ 0 then .error (.notImplemented "zero-based-value-offsets")
  else .ok voffsets

/-- The per-node data an Array view exposes to the writer: logical length,
null count, physical offset into the shared buffers, and the validity
bitmap buffer (`data.Buffers()[0]`, possibly nil). -/
structure ArrMeta where
  len : Nat
  nullN : Nat
  offset : Nat
  validity : Option Buffer
deriving DecidableEq, Repr

/-- The typed columnar array tree, one constructor per logical type the
writer's type switch handles (writer.go:222-379).  Each node carries its
view data (`ArrMeta`) plus the type-specific buffers / children. -/
inductive Arr where
  | nullA (m : ArrMeta)
  | boolA (m : ArrMeta) (values : Option Buffer)
  | fixedA (m : ArrMeta) (bitWidth : Nat) (values : Option Buffer)
  | structA (m : ArrMeta) (children : List Arr)
  | listA (m : ArrMeta) (voffsets : Option Buffer) (offsets : List Int) (child : Arr)
  | fslA (m : ArrMeta) (voffsets : Option Buffer) (offsets : List Int) (child : Arr)

/-- The view data of a node. -/
def Arr.meta : Arr → ArrMeta
  | .nullA m => m
  | .boolA m _ => m
  | .fixedA m _ _ => m
  | .structA m _ => m
  | .listA m _ _ _ => m
  | .fslA m _ _ _ => m

/-- `array.NewSlice(values, i, j)`: a lightweight view over the same
buffers and children with offset advanced by `i` and length `j - i`;
modelled as an adjustment of the view data only (the spec's
"offset-adjusted view, separately retained", section 4.2). -/
def sliceMeta (m : ArrMeta) (i j : Int) : ArrMeta :=
  { m with offset := m.offset + i.toNat, len := (j - i).toNat }

/-- `fieldMetadata` entries: {length, null count, reserved offset}. -/
structure FieldMeta where
  flen : Int
  nulls : Int
  foffset : Int
deriving DecidableEq, Repr

/-- `bufferMetadata` entries: {byte offset in body, padded byte length}. -/
structure BufferMeta where
  boffset : Int
  blen : Int
deriving DecidableEq, Repr

/-- Buffer-lifetime events emitted while visiting: creation of a temporary
child slice (`array.NewSlice`, which retains the view) and its release
(the deferred `values.Release()`). -/
inductive Ev where
  | snew
  | srel
deriving DecidableEq, Repr

/-- The encoder state threaded through `visit`: the growing field-metadata
list, the payload body (ordered buffer slots, `none` = absent buffer), and
the slice lifetime event log. -/
structure VState where
  fields : List FieldMeta
  body : List (Option Buffer)
  events : List Ev
deriving DecidableEq, Repr

/-- The common prologue's validity slot (writer.go:213-220): null count 0
pushes the null placeholder, otherwise the result of `newTruncatedBitmap`
on the node's validity buffer. -/
def pushValidity (m : ArrMeta) (st : VState) : Except Err VState :=
  if m.nullN = 0 then .ok { st with body := st.body ++ [none] }
  else
    match newTruncatedBitmap (m.offset : Int) (m.len : Int) m.validity with
    | .error e => .error e
    | .ok b => .ok { st with body := st.body ++ [some b] }

/-- `values_offset` in the List/FixedSizeList cases (writer.go:322-325):
`arr.Offsets()[0]` when the offsets buffer is non-nil, else 0. -/
def listValuesOffset (vo : Option Buffer) (offs : List Int) : Int :=
  if vo.isSome then offs.getD 0 0 else 0

/-- `values_length` (writer.go:322-325): `arr.Offsets()[arr.Len()] -
values_offset` when the offsets buffer is non-nil, else 0. -/
def listValuesLength (vo : Option Buffer) (offs : List Int) (len : Nat) : Int :=
  if vo.isSome then offs.getD len 0 - listValuesOffset vo offs else 0

/-- The slicing condition of the List/FixedSizeList cases (writer.go:327,
365): `len(arr.Offsets()) != 0 || values_length < int64(values.Len())`. -/
def listMustSlice (vo : Option Buffer) (offs : List Int) (len childLen : Nat) : Bool :=
  offs.length != 0 || listValuesLength vo offs len < (childLen : Int)

mutual

/-- `recordEncoder.visit` (writer.go:197-382).  `m` is the (possibly
slice-adjusted) view of node `a`; top-level calls pass `a.meta`.  The
mutable depth budget, decremented before nested recursion and restored
after, is threaded as the parameter `d`. -/
def visit (a64 : Bool) (d : Int) (m : ArrMeta) (a : Arr) (st : VState) :
    Except Err Unit × VState :=
  if d ≤ 0 then (.error .maxRecursion, st)
  else if a64 = false ∧ maxInt32 < m.len then (.error .bigArray, st)
  else
    let st1 : VState :=
      { st with fields := st.fields ++ [⟨(m.len : Int), (m.nullN : Int), 0⟩] }
    match pushValidity m st1 with
    | .error e => (.error e, st1)
    | .ok st2 =>
      match a with
      | .nullA _ => (.ok (), { st2 with body := st2.body ++ [none] })
      | .boolA _ values =>
        match newTruncatedBitmap (m.offset : Int) (m.len : Int) values with
        | .error e => (.error e, st2)
        | .ok b => (.ok (), { st2 with body := st2.body ++ [some b] })
      | .fixedA _ bitWidth values =>
        let typeWidth : Int := (bitWidth : Int) / 8
        let minLength := paddedLength ((m.len : Int) * typeWidth) kArrowAlignment
        if needTruncate (m.offset : Int) values minLength then
          (.error (.notImplemented "fixed-width-truncation"), st2)
        else (.ok (), { st2 with body := st2.body ++ [values] })
      | .structA _ children => visitChildren a64 (d - 1) children st2
      | .listA _ vo offs child =>
        match getZeroBasedValueOffsets m.offset vo with
        | .error e => (.error e, st2)
        | .ok voffsets =>
          let st3 : VState := { st2 with body := st2.body ++ [voffsets] }
          let vOff := listValuesOffset voffsets offs
          let vLen := listValuesLength voffsets offs m.len
          if listMustSlice voffsets offs m.len child.meta.len then
            let st4 : VState := { st3 with events := st3.events ++ [.snew] }
            let res := visit a64 (d - 1) (sliceMeta child.meta vOff vLen) child st4
            (res.1, { res.2 with events := res.2.events ++ [.srel] })
          else
            visit a64 (d - 1) child.meta child st3
      | .fslA _ vo offs child =>
        match getZeroBasedValueOffsets m.offset vo with
        | .error e => (.error e, st2)
        | .ok voffsets =>
          let st3 : VState := { st2 with body := st2.body ++ [voffsets] }
          let vOff := listValuesOffset voffsets offs
          let vLen := listValuesLength voffsets offs m.len
          if listMustSlice voffsets offs m.len child.meta.len then
            let st4 : VState := { st3 with events := st3.events ++ [.snew] }
            let res := visit a64 (d - 1) (sliceMeta child.meta vOff vLen) child st4
            (res.1, { res.2 with events := res.2.events ++ [.srel] })
          else
            visit a64 (d - 1) child.meta child st3

/-- Sequential visiting of a list of nodes with the same budget: the
struct-children loop (writer.go:293-298) and the column loop of `Encode`
(writer.go:159-164); the first error aborts (wrapped with context in Go,
which preserves the underlying error). -/
def visitChildren (a64 : Bool) (d : Int) (as : List Arr) (st : VState) :
    Except Err Unit × VState :=
  match as with
  | [] => (.ok (), st)
  | a :: rest =>
    let res := visit a64 d a.meta a st
    match res.1 with
    | .error e => (.error e, res.2)
    | .ok _ => visitChildren a64 d rest res.2

end

mutual

/-- Node count of an array tree, measure for inductive proofs. -/
def Arr.size : Arr → Nat
  | .nullA _ => 1
  | .boolA _ _ => 1
  | .fixedA _ _ _ => 1
  | .structA _ children => 1 + Arr.sizeList children
  | .listA _ _ _ child => 1 + child.size
  | .fslA _ _ _ child => 1 + child.size

/-- Total node count of a list of array trees. -/
def Arr.sizeList : List Arr → Nat
  | [] => 0
  | a :: rest => 1 + a.size + Arr.sizeList rest

end

mutual

/-- Nesting depth of an array tree: 1 for flat nodes, one more than the
deepest child for Struct/List/FixedSizeList. -/
def Arr.nestDepth : Arr → Nat
  | .nullA _ => 1
  | .boolA _ _ => 1
  | .fixedA _ _ _ => 1
  | .structA _ children => 1 + Arr.nestDepthList children
  | .listA _ _ _ child => 1 + child.nestDepth
  | .fslA _ _ _ child => 1 + child.nestDepth

/-- Maximum nesting depth over a list of array trees. -/
def Arr.nestDepthList : List Arr → Nat
  | [] => 0
  | a :: rest => max a.nestDepth (Arr.nestDepthList rest)

end

/-- The padded byte contribution of one body slot: absent buffers
contribute 0, others their byte length rounded up to a multiple of 8
(writer.go:172-187). -/
def paddedSize (b : Option Buffer) : Int :=
  match b with
  | none => 0
  | some bb => ceilByte64 (bb.len : Int)

/-- The second pass of `recordEncoder.Encode` (writer.go:168-187): walk the
body buffers accumulating a running byte offset from the base offset and
one `BufferMeta` entry per slot with the padded length. -/
def computeBufferMeta (offset0 : Int) (body : List (Option Buffer)) :
    List BufferMeta × Int :=
  match body with
  | [] => ([], offset0)
  | b :: rest =>
    let size : Int := match b with | none => 0 | some bb => (bb.len : Int)
    let padding := ceilByte64 size - size
    let res := computeBufferMeta (offset0 + size + padding) rest
    (⟨offset0, size + padding⟩ :: res.1, res.2)

instance {ε α : Type} [DecidableEq ε] [DecidableEq α] : DecidableEq (Except ε α) := fun a b =>
  match a, b with
  | .ok x, .ok y =>
    if h : x = y then isTrue (by rw [h])
    else isFalse (by intro hc; cases hc; exact h rfl)
  | .error x, .error y =>
    if h : x = y then isTrue (by rw [h])
    else isFalse (by intro hc; cases hc; exact h rfl)
  | .ok _, .error _ => isFalse (by intro hc; cases hc)
  | .error _, .ok _ => isFalse (by intro hc; cases hc)

/-- The outcome of `recordEncoder.Encode` (writer.go:156-195): the visit
result, the final encoder state (partial on error, as Go keeps the
payload's already-appended buffers), and on success the buffer metadata
and total body size. -/
structure EncResult where
  res : Except Err Unit
  st : VState
  meta : List BufferMeta
  size : Int
deriving DecidableEq, Repr

/-- `recordEncoder.Encode` (writer.go:156-195): visit every column with the
full depth budget, then compute buffer metadata and the total body size,
asserting 8-byte alignment (`panic("not aligned")` modelled as an error
that the alignment theorem shows unreachable). -/
def recordEncode (a64 : Bool) (maxDepth startOffset : Int) (cols : List Arr) :
    EncResult :=
  let r := visitChildren a64 maxDepth cols ⟨[], [], []⟩
  match r.1 with
  | .error e => ⟨.error e, r.2, [], 0⟩
  | .ok _ =>
    let mo := computeBufferMeta startOffset r.2.body
    let size := mo.2 - startOffset
    if isMultipleOf8 size then ⟨.ok (), r.2, mo.1, size⟩
    else ⟨.error .notAligned, r.2, mo.1, size⟩

/-- Payload kinds the stream writer emits to its sink: the schema header
payloads written by `Writer.start`, one record-batch payload per
successful `Write`, and the end-of-stream sentinel `kEOS` written by
`swriter.Close`.  Modelled from the spec: the byte-level framing of each
payload lives outside src (`writeIPCPayload`, `payloadsFromSchema`,
`kEOS`); a sink entry stands for the non-empty byte run of one payload. -/
inductive Msg where
  | schemaMsg
  | recordMsg
  | eosMsg
deriving DecidableEq, Repr

/-- `ipc.Writer` state: the `started` flag, whether the payload writer is
still present (`w.pw != nil`; `Close` sets it to nil), the bound schema
(structural equality on schemas modelled as equality of identifiers), and
the bytes written so far to the output sink. -/
structure WState where
  started : Bool
  hasPW : Bool
  schema : Nat
  sink : List Msg
deriving DecidableEq, Repr

/-- Outcome of one `Writer.Write` call: the returned result, the writer
state afterwards, and the buffers released by the deferred
`data.Release()` (`none` when no payload was ever constructed for the
call; modelled from the spec: Payload "owns retained references to every
body buffer until explicitly released", so releasing frees exactly the
non-nil body slots). -/
structure WriteOut where
  res : Except Err Unit
  w : WState
  released : Option (List Buffer)
deriving DecidableEq, Repr

/-- The part of `Writer.Write` after the `started` check (writer.go:100-117):
schema validation, record encoding with the deferred payload release, and
the payload write through `w.pw`. -/
def writerWriteStarted (w : WState) (recSchema : Option Nat) (cols : List Arr) :
    WriteOut :=
  match recSchema with
  | none => ⟨.error .inconsistentSchema, w, none⟩
  | some s =>
    if s ≠ w.schema then ⟨.error .inconsistentSchema, w, none⟩
    else
      let enc := recordEncode true kMaxNestingDepth 0 cols
      let freed := enc.st.body.filterMap id
      match enc.res with
      | .error e => ⟨.error e, w, some freed⟩
      | .ok _ =>
        if w.hasPW then ⟨.ok (), { w with sink := w.sink ++ [.recordMsg] }, some freed⟩
        else ⟨.error .nilPayloadWriter, w, some freed⟩

/-- `Writer.Write` (writer.go:92-117) together with `Writer.start`
(writer.go:119-134): a not-yet-started writer first sets `started` and
writes the schema payloads to the sink (through `w.pw`, a nil payload
writer faulting), and only then validates the record's schema. -/
def writerWrite (w : WState) (recSchema : Option Nat) (cols : List Arr) :
    WriteOut :=
  if w.started then writerWriteStarted w recSchema cols
  else
    let w1 : WState := { w with started := true }
    if w1.hasPW then
      writerWriteStarted { w1 with sink := w1.sink ++ [.schemaMsg] } recSchema cols
    else ⟨.error .nilPayloadWriter, w1, none⟩

/-- `Writer.Close` (writer.go:78-90) with `swriter.Close` (writer.go:37-40):
a writer whose payload writer is already nil returns success immediately;
otherwise the end-of-stream sentinel is written and the payload writer
cleared. -/
def writerClose (w : WState) : Except Err Unit × WState :=
  if w.hasPW then (.ok (), { w with sink := w.sink ++ [.eosMsg], hasPW := false })
  else (.ok (), w)

/-- The deeply nested struct-of-struct family of the spec's depth-limit
scenario: `structNest n` is `n` single-child struct wrappers around a flat
zero-row fixed-width leaf, so its nesting depth is `n + 1`. -/
def structNest : Nat → Arr
  | 0 => Arr.fixedA ⟨0, 0, 0, none⟩ 32 (some ⟨0, 0⟩)
  | n + 1 => Arr.structA ⟨0, 0, 0, none⟩ [structNest n]

/- ------------------------------------------------------------------ -/
/- Helper lemmas                                                      -/
/- ------------------------------------------------------------------ -/

theorem pushValidity_events (m : ArrMeta) (st st' : VState)
    (h : pushValidity m st = .ok st') : st'.events = st.events := by
  unfold pushValidity at h
  by_cases hn : m.nullN = 0
  · rw [if_pos hn] at h
    cases h
    rfl
  · rw [if_neg hn] at h
    rcases hb : newTruncatedBitmap (m.offset : Int) (m.len : Int) m.validity with e | b
    · rw [hb] at h; cases h
    · rw [hb] at h; cases h; rfl

theorem Arr.size_pos (a : Arr) : 1 ≤ a.size := by
  cases a <;> simp [Arr.size]

theorem Arr.sizeList_nil_of_le_zero {as : List Arr} (h : Arr.sizeList as ≤ 0) :
    as = [] := by
  cases as with
  | nil => rfl
  | cons a rest => simp [Arr.sizeList] at h

/-- C4: `needTruncate` returns false on every nil buffer, and on a non-nil
buffer returns true exactly when the offset is nonzero or the buffer's
byte length exceeds the minimum required length. -/
theorem needTruncate_spec (offset minLength : Int) (b : Buffer) :
    needTruncate offset none minLength = false ∧
    (needTruncate offset (some b) minLength = true ↔
      offset ≠ 0 ∨ minLength < (b.len : Int)) := by
  refine ⟨rfl, ?_⟩
  simp [needTruncate]

/-- C5: `getZeroBasedValueOffsets` at physical offset 0 returns the
existing offsets buffer unmodified; at nonzero offset it fails with the
explicit not-implemented error; and it never succeeds with anything other
than the unmodified buffer at offset 0. -/
theorem getZeroBasedValueOffsets_spec :
    (∀ vo : Option Buffer, getZeroBasedValueOffsets 0 vo = .ok vo) ∧
    (∀ off : Nat, off ≠ 0 → ∀ vo : Option Buffer,
      getZeroBasedValueOffsets off vo =
        .error (.notImplemented "zero-based-value-offsets")) ∧
    (∀ (off : Nat) (vo r : Option Buffer),
      getZeroBasedValueOffsets off vo = .ok r → r = vo ∧ off = 0) := by
  refine ⟨fun vo => rfl, fun off h vo => by simp [getZeroBasedValueOffsets, h], ?_⟩
  intro off vo r h
  by_cases hoff : off = 0
  · subst hoff
    simp [getZeroBasedValueOffsets] at h
    exact ⟨h.symm, rfl⟩
  · simp [getZeroBasedValueOffsets, hoff] at h

/-- Witness for C5 at concrete inputs. -/
theorem getZeroBasedValueOffsets_witness :
    getZeroBasedValueOffsets 0 (some ⟨1, 4⟩) = .ok (some ⟨1, 4⟩) ∧
    getZeroBasedValueOffsets 3 (some ⟨1, 4⟩) =
      .error (.notImplemented "zero-based-value-offsets") :=
  ⟨getZeroBasedValueOffsets_spec.1 (some ⟨1, 4⟩),
   getZeroBasedValueOffsets_spec.2.1 3 (by decide) (some ⟨1, 4⟩)⟩

/-- C10: `newTruncatedBitmap` is not total in its input buffer: on a nil
input the non-nil early return does not apply and the function always
fails — at offset 0 by dereferencing the nil buffer to read its length,
at nonzero offset through the unimplemented-copy panic — and in
particular never returns a bitmap. -/
theorem newTruncatedBitmap_nil_fails :
    (∀ length : Int, newTruncatedBitmap 0 length none = .error .nilBuffer) ∧
    (∀ offset length : Int, offset ≠ 0 →
      newTruncatedBitmap offset length none =
        .error (.notImplemented "truncated-bitmap-copy")) ∧
    (∀ (offset length : Int) (b : Buffer),
      newTruncatedBitmap offset length none ≠ .ok b) := by
  refine ⟨fun length => rfl, fun offset length h => by simp [newTruncatedBitmap, h], ?_⟩
  intro offset length b h
  by_cases hoff : offset = 0
  · subst hoff; simp [newTruncatedBitmap] at h
  · simp [newTruncatedBitmap, hoff] at h

/-- Witness for C10 at concrete inputs. -/
theorem newTruncatedBitmap_nil_fails_witness :
    newTruncatedBitmap 0 16 none = .error .nilBuffer ∧
    newTruncatedBitmap 5 16 none = .error (.notImplemented "truncated-bitmap-copy") :=
  ⟨newTruncatedBitmap_nil_fails.1 16,
   newTruncatedBitmap_nil_fails.2.1 5 16 (by decide)⟩

/-- C2 (code evaluation at the failing input): for a node with 2 nulls,
physical offset 3 and a 1-byte validity buffer, the truncation policy
(`needTruncate`) demands a copy, yet `newTruncatedBitmap` returns the
buffer retained unmodified — its inverted nil-guard makes the copy path
unreachable — and `visit`'s validity step pushes that unmodified buffer. -/
theorem validityBitmap_guard_inverted :
    newTruncatedBitmap 3 8 (some ⟨0, 1⟩) = .ok ⟨0, 1⟩ ∧
    needTruncate 3 (some ⟨0, 1⟩) (paddedLength (bytesForBits 8) kArrowAlignment) = true ∧
    pushValidity ⟨8, 2, 3, some ⟨0, 1⟩⟩ ⟨[], [], []⟩ =
      .ok ⟨[], [some ⟨0, 1⟩], []⟩ := by
  exact ⟨rfl, by decide, rfl⟩

/-- C8: the first `Close` on a live writer writes the end-of-stream
sentinel, succeeds, and clears the payload writer; a second `Close` is a
no-op returning success. -/
theorem writerClose_spec (w : WState) (h : w.hasPW = true) :
    (writerClose w).1 = .ok () ∧
    (writerClose w).2.sink = w.sink ++ [Msg.eosMsg] ∧
    (writerClose w).2.hasPW = false ∧
    writerClose (writerClose w).2 = (.ok (), (writerClose w).2) := by
  simp [writerClose, h]

/-- Witness for C8 on a concrete writer. -/
theorem writerClose_witness :
    (writerClose ⟨true, true, 0, []⟩).1 = .ok () ∧
    (writerClose ⟨true, true, 0, []⟩).2.sink = [] ++ [Msg.eosMsg] ∧
    (writerClose ⟨true, true, 0, []⟩).2.hasPW = false ∧
    writerClose (writerClose ⟨true, true, 0, []⟩).2 =
      (.ok (), (writerClose ⟨true, true, 0, []⟩).2) :=
  writerClose_spec ⟨true, true, 0, []⟩ rfl

theorem writerWriteStarted_mismatch (w : WState) (rs : Option Nat)
    (cols : List Arr) (h : rs ≠ some w.schema) :
    writerWriteStarted w rs cols = ⟨.error .inconsistentSchema, w, none⟩ := by
  cases rs with
  | none => rfl
  | some s =>
    have hs : s ≠ w.schema := fun hc => h (by rw [hc])
    simp [writerWriteStarted, hs]

theorem writerWriteStarted_noPW (w : WState) (rs : Option Nat) (cols : List Arr)
    (h : w.hasPW = false) :
    (∃ e, (writerWriteStarted w rs cols).res = .error e) ∧
    (writerWriteStarted w rs cols).w.sink = w.sink := by
  cases rs with
  | none => exact ⟨⟨.inconsistentSchema, rfl⟩, rfl⟩
  | some s =>
    by_cases hs : s = w.schema
    · rcases he : (recordEncode true kMaxNestingDepth 0 cols).res with e | u
      · refine ⟨⟨e, ?_⟩, ?_⟩ <;> simp [writerWriteStarted, hs, he]
      · refine ⟨⟨.nilPayloadWriter, ?_⟩, ?_⟩ <;> simp [writerWriteStarted, hs, he, h]
    · exact ⟨⟨.inconsistentSchema, by simp [writerWriteStarted, hs]⟩,
        by simp [writerWriteStarted, hs]⟩

/-- C9: on a writer whose payload writer has been cleared by a successful
`Close`, every `Write` call fails and appends nothing to the sink — no
record payload can follow the end-of-stream marker. -/
theorem writeAfterClose_fails (w : WState) (rs : Option Nat) (cols : List Arr)
    (h : w.hasPW = false) :
    (∃ e, (writerWrite w rs cols).res = .error e) ∧
    (writerWrite w rs cols).w.sink = w.sink := by
  by_cases hs : w.started
  · have := writerWriteStarted_noPW w rs cols h
    simpa [writerWrite, hs] using this
  · simp [writerWrite, hs, h]

/-- Witness for C9: writing on a concrete closed writer. -/
theorem writeAfterClose_fails_witness :
    (∃ e, (writerWrite ⟨true, false, 2, [Msg.schemaMsg, Msg.eosMsg]⟩ (some 2) []).res =
      .error e) ∧
    (writerWrite ⟨true, false, 2, [Msg.schemaMsg, Msg.eosMsg]⟩ (some 2) []).w.sink =
      [Msg.schemaMsg, Msg.eosMsg] :=
  writeAfterClose_fails ⟨true, false, 2, [Msg.schemaMsg, Msg.eosMsg]⟩ (some 2) [] rfl

/-- C1 (amended): every `Write` with a nil or mismatched record schema
returns `InconsistentSchema`; a non-first `Write` leaves the sink
untouched, while the first `Write` on a live writer has already emitted
the schema header payloads through `start` before validating, so those —
and only those — bytes reach the sink. -/
theorem writeMismatch_spec (w : WState) (rs : Option Nat) (cols : List Arr)
    (h : rs ≠ some w.schema) :
    (w.started = true → writerWrite w rs cols = ⟨.error .inconsistentSchema, w, none⟩) ∧
    (w.started = false → w.hasPW = true →
      writerWrite w rs cols =
        ⟨.error .inconsistentSchema,
         { w with started := true, sink := w.sink ++ [Msg.schemaMsg] }, none⟩) := by
  constructor
  · intro hs
    rw [writerWrite, if_pos hs, writerWriteStarted_mismatch w rs cols h]
  · intro hs hpw
    rw [writerWrite, if_neg (by rw [hs]; exact Bool.false_ne_true)]
    simp only [hpw, if_true]
    rw [writerWriteStarted_mismatch
      ⟨true, true, w.schema, w.sink ++ [Msg.schemaMsg]⟩ rs cols h]

/-- Witness for C1's amended statement on concrete writers. -/
theorem writeMismatch_witness :
    writerWrite ⟨true, true, 4, [Msg.schemaMsg]⟩ none [] =
      ⟨.error .inconsistentSchema, ⟨true, true, 4, [Msg.schemaMsg]⟩, none⟩ ∧
    writerWrite ⟨false, true, 4, []⟩ (some 9) [] =
      ⟨.error .inconsistentSchema, ⟨true, true, 4, [Msg.schemaMsg]⟩, none⟩ :=
  ⟨(writeMismatch_spec ⟨true, true, 4, [Msg.schemaMsg]⟩ none [] (by decide)).1 rfl,
   (writeMismatch_spec ⟨false, true, 4, []⟩ (some 9) [] (by decide)).2 rfl rfl⟩

/-- C1 (counterexample to the claim as stated): on the first `Write` of a
fresh writer with a mismatched record schema, the call returns
`InconsistentSchema` but the sink has received the schema header payload
written by `start` — bytes are written by that call. -/
theorem write_firstWrite_emits_schema :
    (writerWrite ⟨false, true, 0, []⟩ (some 1) []).res = .error .inconsistentSchema ∧
    (writerWrite ⟨false, true, 0, []⟩ (some 1) []).w.sink = [Msg.schemaMsg] :=
  ⟨rfl, rfl⟩

theorem ceilByte64_zero : ceilByte64 0 = 0 := by decide

theorem computeBufferMeta_cons (o : Int) (b : Option Buffer)
    (rest : List (Option Buffer)) :
    computeBufferMeta o (b :: rest) =
      (⟨o, paddedSize b⟩ :: (computeBufferMeta (o + paddedSize b) rest).1,
       (computeBufferMeta (o + paddedSize b) rest).2) := by
  cases b with
  | none => simp [computeBufferMeta, paddedSize, ceilByte64_zero]
  | some bb =>
    have h2 : o + (bb.len : Int) + (ceilByte64 (bb.len : Int) - (bb.len : Int)) =
        o + ceilByte64 (bb.len : Int) := by ring
    have h3 : (bb.len : Int) + (ceilByte64 (bb.len : Int) - (bb.len : Int)) =
        ceilByte64 (bb.len : Int) := by ring
    simp [computeBufferMeta, paddedSize, h2, h3]

theorem computeBufferMeta_lens (o : Int) (body : List (Option Buffer)) :
    (computeBufferMeta o body).1.map BufferMeta.blen = body.map paddedSize := by
  induction body generalizing o with
  | nil => rfl
  | cons b rest ih => rw [computeBufferMeta_cons]; simp [ih]

theorem computeBufferMeta_end (o : Int) (body : List (Option Buffer)) :
    (computeBufferMeta o body).2 = o + (body.map paddedSize).sum := by
  induction body generalizing o with
  | nil => simp [computeBufferMeta]
  | cons b rest ih => rw [computeBufferMeta_cons]; simp [ih]; ring

theorem ceilByte64_emod (s : Int) : ceilByte64 s % 8 = 0 := by
  unfold ceilByte64
  exact Int.mul_emod_left _ _

theorem paddedSize_dvd (b : Option Buffer) : (8 : Int) ∣ paddedSize b := by
  cases b with
  | none => exact ⟨0, rfl⟩
  | some bb => exact Int.dvd_of_emod_eq_zero (ceilByte64_emod (bb.len : Int))

theorem computeBufferMeta_offsets (body : List (Option Buffer)) :
    ∀ (o : Int) (i : Nat), i < body.length →
      ((computeBufferMeta o body).1.getD i ⟨0, 0⟩).boffset =
        o + ((body.map paddedSize).take i).sum := by
  induction body with
  | nil => intro o i h; cases h
  | cons b rest ih =>
    intro o i h
    rw [computeBufferMeta_cons]
    cases i with
    | zero => simp
    | succ i =>
      have hlt : i < rest.length := by simpa using h
      have step := ih (o + paddedSize b) i hlt
      simp only [List.getD_cons_succ, List.map_cons, List.take_succ_cons,
        List.sum_cons]
      rw [step]
      ring

theorem recordEncode_eq_err (a64 : Bool) (maxd so : Int) (cols : List Arr)
    (e : Err) (hv : (visitChildren a64 maxd cols ⟨[], [], []⟩).1 = .error e) :
    recordEncode a64 maxd so cols =
      ⟨.error e, (visitChildren a64 maxd cols ⟨[], [], []⟩).2, [], 0⟩ := by
  simp [recordEncode, hv]

theorem recordEncode_eq_ok (a64 : Bool) (maxd so : Int) (cols : List Arr)
    (hv : (visitChildren a64 maxd cols ⟨[], [], []⟩).1 = .ok ())
    (hm : isMultipleOf8 ((computeBufferMeta so
      (visitChildren a64 maxd cols ⟨[], [], []⟩).2.body).2 - so) = true) :
    recordEncode a64 maxd so cols =
      ⟨.ok (), (visitChildren a64 maxd cols ⟨[], [], []⟩).2,
       (computeBufferMeta so (visitChildren a64 maxd cols ⟨[], [], []⟩).2.body).1,
       (computeBufferMeta so (visitChildren a64 maxd cols ⟨[], [], []⟩).2.body).2 - so⟩ := by
  simp [recordEncode, hv, hm]

theorem recordEncode_eq_notAligned (a64 : Bool) (maxd so : Int) (cols : List Arr)
    (hv : (visitChildren a64 maxd cols ⟨[], [], []⟩).1 = .ok ())
    (hm : ¬ isMultipleOf8 ((computeBufferMeta so
      (visitChildren a64 maxd cols ⟨[], [], []⟩).2.body).2 - so) = true) :
    recordEncode a64 maxd so cols =
      ⟨.error .notAligned, (visitChildren a64 maxd cols ⟨[], [], []⟩).2,
       (computeBufferMeta so (visitChildren a64 maxd cols ⟨[], [], []⟩).2.body).1,
       (computeBufferMeta so (visitChildren a64 maxd cols ⟨[], [], []⟩).2.body).2 - so⟩ := by
  simp [recordEncode, hv, hm]

/-- C6: the second pass of `Encode` produces, for every body, buffer
metadata whose padded lengths are exactly the slot byte lengths rounded up
to 8 (nil slots contributing 0), whose offsets form a running total from
the base offset, and whose sum equals the total body size, itself a
multiple of 8; consequently every successful `recordEncoder.Encode`
satisfies these invariants and the "not aligned" assertion never fires. -/
theorem encodeAlignment_spec :
    (∀ (o : Int) (body : List (Option Buffer)),
      ((computeBufferMeta o body).2 - o) % 8 = 0 ∧
      (computeBufferMeta o body).2 - o = (body.map paddedSize).sum ∧
      (computeBufferMeta o body).1.map BufferMeta.blen = body.map paddedSize ∧
      (∀ i : Nat, i < body.length →
        ((computeBufferMeta o body).1.getD i ⟨0, 0⟩).boffset =
          o + ((body.map paddedSize).take i).sum)) ∧
    (∀ (a64 : Bool) (maxd so : Int) (cols : List Arr),
      (recordEncode a64 maxd so cols).res = .ok () →
      (recordEncode a64 maxd so cols).size % 8 = 0 ∧
      (recordEncode a64 maxd so cols).size =
        ((recordEncode a64 maxd so cols).meta.map BufferMeta.blen).sum ∧
      (recordEncode a64 maxd so cols).meta.map BufferMeta.blen =
        (recordEncode a64 maxd so cols).st.body.map paddedSize ∧
      (∀ i : Nat, i < (recordEncode a64 maxd so cols).st.body.length →
        ((recordEncode a64 maxd so cols).meta.getD i ⟨0, 0⟩).boffset =
          so + (((recordEncode a64 maxd so cols).st.body.map paddedSize).take i).sum)) := by
  have hgen : ∀ (o : Int) (body : List (Option Buffer)),
      ((computeBufferMeta o body).2 - o) % 8 = 0 ∧
      (computeBufferMeta o body).2 - o = (body.map paddedSize).sum ∧
      (computeBufferMeta o body).1.map BufferMeta.blen = body.map paddedSize ∧
      (∀ i : Nat, i < body.length →
        ((computeBufferMeta o body).1.getD i ⟨0, 0⟩).boffset =
          o + ((body.map paddedSize).take i).sum) := by
    intro o body
    have hsum : (computeBufferMeta o body).2 - o = (body.map paddedSize).sum := by
      rw [computeBufferMeta_end]; ring
    have hdvd : (8 : Int) ∣ (body.map paddedSize).sum := by
      refine List.dvd_sum ?_
      intro x hx
      rcases List.mem_map.1 hx with ⟨b, _, hb⟩
      exact hb ▸ paddedSize_dvd b
    refine ⟨?_, hsum, computeBufferMeta_lens o body, computeBufferMeta_offsets body o⟩
    rw [hsum]
    exact Int.emod_eq_zero_of_dvd hdvd
  refine ⟨hgen, ?_⟩
  intro a64 maxd so cols hok
  rcases hv : (visitChildren a64 maxd cols ⟨[], [], []⟩).1 with e | u
  · rw [recordEncode_eq_err a64 maxd so cols e hv] at hok
    simp at hok
  · by_cases hm : isMultipleOf8 ((computeBufferMeta so
        (visitChildren a64 maxd cols ⟨[], [], []⟩).2.body).2 - so) = true
    · rw [recordEncode_eq_ok a64 maxd so cols hv hm]
      have h := hgen so (visitChildren a64 maxd cols ⟨[], [], []⟩).2.body
      refine ⟨h.1, ?_, h.2.2.1, h.2.2.2⟩
      rw [h.2.1, h.2.2.1]
    · rw [recordEncode_eq_notAligned a64 maxd so cols hv hm] at hok
      simp at hok

/-- Witness for C6: a one-column fixed-width record encodes successfully
and the theorem's invariants hold for it. -/
theorem encodeAlignment_witness :
    ((computeBufferMeta 0 [none, some ⟨0, 8⟩]).2 - 0) % 8 = 0 ∧
    (recordEncode true 64 0 [Arr.fixedA ⟨1, 0, 0, none⟩ 32 (some ⟨0, 8⟩)]).size % 8 = 0 ∧
    (recordEncode true 64 0 [Arr.fixedA ⟨1, 0, 0, none⟩ 32 (some ⟨0, 8⟩)]).size =
      ((recordEncode true 64 0 [Arr.fixedA ⟨1, 0, 0, none⟩ 32
        (some ⟨0, 8⟩)]).meta.map BufferMeta.blen).sum :=
  ⟨(encodeAlignment_spec.1 0 [none, some ⟨0, 8⟩]).1,
   (encodeAlignment_spec.2 true 64 0 [Arr.fixedA ⟨1, 0, 0, none⟩ 32 (some ⟨0, 8⟩)] rfl).1,
   (encodeAlignment_spec.2 true 64 0 [Arr.fixedA ⟨1, 0, 0, none⟩ 32 (some ⟨0, 8⟩)] rfl).2.1⟩
theorem visit_listA (a64 : Bool) (d : Int) (m ma : ArrMeta) (vo : Option Buffer)
    (offs : List Int) (child : Arr) (st : VState) :
    visit a64 d m (Arr.listA ma vo offs child) st =
      if d ≤ 0 then (.error .maxRecursion, st)
      else if a64 = false ∧ maxInt32 < m.len then (.error .bigArray, st)
      else
        let st1 : VState :=
          { st with fields := st.fields ++ [⟨(m.len : Int), (m.nullN : Int), 0⟩] }
        match pushValidity m st1 with
        | .error e => (.error e, st1)
        | .ok st2 =>
          match getZeroBasedValueOffsets m.offset vo with
          | .error e => (.error e, st2)
          | .ok voffsets =>
            let st3 : VState := { st2 with body := st2.body ++ [voffsets] }
            if listMustSlice voffsets offs m.len child.meta.len then
              let st4 : VState := { st3 with events := st3.events ++ [Ev.snew] }
              let res := visit a64 (d - 1)
                (sliceMeta child.meta (listValuesOffset voffsets offs)
                  (listValuesLength voffsets offs m.len)) child st4
              (res.1, { res.2 with events := res.2.events ++ [Ev.srel] })
            else visit a64 (d - 1) child.meta child st3 := by
  conv_lhs => rw [visit]

theorem visit_fslA (a64 : Bool) (d : Int) (m ma : ArrMeta) (vo : Option Buffer)
    (offs : List Int) (child : Arr) (st : VState) :
    visit a64 d m (Arr.fslA ma vo offs child) st =
      if d ≤ 0 then (.error .maxRecursion, st)
      else if a64 = false ∧ maxInt32 < m.len then (.error .bigArray, st)
      else
        let st1 : VState :=
          { st with fields := st.fields ++ [⟨(m.len : Int), (m.nullN : Int), 0⟩] }
        match pushValidity m st1 with
        | .error e => (.error e, st1)
        | .ok st2 =>
          match getZeroBasedValueOffsets m.offset vo with
          | .error e => (.error e, st2)
          | .ok voffsets =>
            let st3 : VState := { st2 with body := st2.body ++ [voffsets] }
            if listMustSlice voffsets offs m.len child.meta.len then
              let st4 : VState := { st3 with events := st3.events ++ [Ev.snew] }
              let res := visit a64 (d - 1)
                (sliceMeta child.meta (listValuesOffset voffsets offs)
                  (listValuesLength voffsets offs m.len)) child st4
              (res.1, { res.2 with events := res.2.events ++ [Ev.srel] })
            else visit a64 (d - 1) child.meta child st3 := by
  conv_lhs => rw [visit]

set_option maxRecDepth 8000 in
theorem visit_events_aux : ∀ n : Nat,
    (∀ a : Arr, a.size ≤ n → ∀ (a64 : Bool) (d : Int) (m : ArrMeta) (st : VState),
      ∃ δ : List Ev, (visit a64 d m a st).2.events = st.events ++ δ ∧
        δ.count Ev.snew = δ.count Ev.srel) ∧
    (∀ as : List Arr, Arr.sizeList as ≤ n → ∀ (a64 : Bool) (d : Int) (st : VState),
      ∃ δ : List Ev, (visitChildren a64 d as st).2.events = st.events ++ δ ∧
        δ.count Ev.snew = δ.count Ev.srel) := by
  intro n
  induction n with
  | zero =>
    constructor
    · intro a hsize
      have := Arr.size_pos a
      omega
    · intro as hsize a64 d st
      rw [Arr.sizeList_nil_of_le_zero hsize]
      exact ⟨[], by simp [visitChildren], rfl⟩
  | succ n ih =>
    constructor
    · intro a hsize a64 d m st
      by_cases hd : d ≤ 0
      · refine ⟨[], ?_, rfl⟩
        cases a <;> simp [visit, hd]
      · by_cases hbig : a64 = false ∧ maxInt32 < m.len
        · refine ⟨[], ?_, rfl⟩
          cases a <;> simp [visit, hd, hbig]
        · rcases hpv : pushValidity m
            { st with fields := st.fields ++ [⟨(m.len : Int), (m.nullN : Int), 0⟩] }
            with e | st2
          · refine ⟨[], ?_, rfl⟩
            cases a <;> simp [visit, hd, hbig, hpv]
          · have hev2 := pushValidity_events _ _ _ hpv
            cases a with
            | nullA ma =>
              exact ⟨[], by simp [visit, hd, hbig, hpv, hev2], rfl⟩
            | boolA ma values =>
              rcases hb : newTruncatedBitmap (m.offset : Int) (m.len : Int) values
                  with e | b
              · exact ⟨[], by simp [visit, hd, hbig, hpv, hb, hev2], rfl⟩
              · exact ⟨[], by simp [visit, hd, hbig, hpv, hb, hev2], rfl⟩
            | fixedA ma bw values =>
              exact ⟨[], by simp [visit, hd, hbig, hpv, hev2, apply_ite], rfl⟩
            | structA ma children =>
              have hcs : Arr.sizeList children ≤ n := by
                simp [Arr.size] at hsize; omega
              obtain ⟨δ, hδ, hbal⟩ := ih.2 children hcs a64 (d - 1) st2
              exact ⟨δ, by simp [visit, hd, hbig, hpv, hδ, hev2], hbal⟩
            | listA ma vo offs child =>
              have hcs : child.size ≤ n := by
                simp [Arr.size] at hsize; omega
              rcases hz : getZeroBasedValueOffsets m.offset vo with e | voffsets
              · refine ⟨[], ?_, rfl⟩
                rw [visit_listA]
                simp [hd, hbig, hpv, hz, hev2]
              · by_cases hms : listMustSlice voffsets offs m.len child.meta.len = true
                · obtain ⟨δc, hδc, hbal⟩ := ih.1 child hcs a64 (d - 1)
                    (sliceMeta child.meta (listValuesOffset voffsets offs)
                      (listValuesLength voffsets offs m.len))
                    ⟨st2.fields, st2.body ++ [voffsets], st.events ++ [Ev.snew]⟩
                  refine ⟨Ev.snew :: (δc ++ [Ev.srel]), ?_, ?_⟩
                  · rw [visit_listA]
                    simp [hd, hbig, hpv, hz, hms, hδc, hev2]
                  · simp [List.count_append, List.count_cons, hbal]
                · obtain ⟨δc, hδc, hbal⟩ := ih.1 child hcs a64 (d - 1) child.meta
                    ⟨st2.fields, st2.body ++ [voffsets], st.events⟩
                  refine ⟨δc, ?_, hbal⟩
                  rw [visit_listA]
                  simp [hd, hbig, hpv, hz, hms, hδc, hev2]
            | fslA ma vo offs child =>
              have hcs : child.size ≤ n := by
                simp [Arr.size] at hsize; omega
              rcases hz : getZeroBasedValueOffsets m.offset vo with e | voffsets
              · refine ⟨[], ?_, rfl⟩
                rw [visit_fslA]
                simp [hd, hbig, hpv, hz, hev2]
              · by_cases hms : listMustSlice voffsets offs m.len child.meta.len = true
                · obtain ⟨δc, hδc, hbal⟩ := ih.1 child hcs a64 (d - 1)
                    (sliceMeta child.meta (listValuesOffset voffsets offs)
                      (listValuesLength voffsets offs m.len))
                    ⟨st2.fields, st2.body ++ [voffsets], st.events ++ [Ev.snew]⟩
                  refine ⟨Ev.snew :: (δc ++ [Ev.srel]), ?_, ?_⟩
                  · rw [visit_fslA]
                    simp [hd, hbig, hpv, hz, hms, hδc, hev2]
                  · simp [List.count_append, List.count_cons, hbal]
                · obtain ⟨δc, hδc, hbal⟩ := ih.1 child hcs a64 (d - 1) child.meta
                    ⟨st2.fields, st2.body ++ [voffsets], st.events⟩
                  refine ⟨δc, ?_, hbal⟩
                  rw [visit_fslA]
                  simp [hd, hbig, hpv, hz, hms, hδc, hev2]
    · intro as hsize a64 d st
      cases as with
      | nil => exact ⟨[], by simp [visitChildren], rfl⟩
      | cons a rest =>
        have ha : a.size ≤ n ∧ Arr.sizeList rest ≤ n := by
          simp [Arr.sizeList] at hsize
          omega
        obtain ⟨δ1, hδ1, hbal1⟩ := ih.1 a ha.1 a64 d a.meta st
        rcases hr : (visit a64 d a.meta a st).1 with e | u
        · exact ⟨δ1, by simp [visitChildren, hr, hδ1], hbal1⟩
        · obtain ⟨δ2, hδ2, hbal2⟩ := ih.2 rest ha.2 a64 d (visit a64 d a.meta a st).2
          refine ⟨δ1 ++ δ2, ?_, ?_⟩
          · simp [visitChildren, hr, hδ2, hδ1]
          · simp [List.count_append, hbal1, hbal2]

theorem listA_slice_events (m : ArrMeta) (vo : Option Buffer) (offs : List Int)
    (child : Arr) (d : Int) (st : VState)
    (hd : 0 < d) (hnn : m.nullN = 0) (hoff : m.offset = 0) :
    ∃ δ : List Ev,
      δ.count Ev.snew = δ.count Ev.srel ∧
      (visit true d m (Arr.listA m vo offs child) st).2.events = st.events ++
        (if listMustSlice vo offs m.len child.meta.len then
          Ev.snew :: (δ ++ [Ev.srel]) else δ) := by
  have hd' : ¬ d ≤ 0 := by omega
  have hbig : ¬(true = false ∧ maxInt32 < m.len) := by simp
  rcases hpv : pushValidity m
      ⟨st.fields ++ [⟨(m.len : Int), (m.nullN : Int), 0⟩], st.body, st.events⟩
      with e | st2
  · exfalso
    simp [pushValidity, hnn] at hpv
  · have hev2 := pushValidity_events _ _ _ hpv
    by_cases hms : listMustSlice vo offs m.len child.meta.len = true
    · obtain ⟨δc, hδc, hbal⟩ := (visit_events_aux child.size).1 child le_rfl true (d - 1)
        (sliceMeta child.meta (listValuesOffset vo offs) (listValuesLength vo offs m.len))
        ⟨st2.fields, st2.body ++ [vo], st.events ++ [Ev.snew]⟩
      refine ⟨δc, hbal, ?_⟩
      rw [visit_listA]
      simp [hd', hbig, hpv, hoff, getZeroBasedValueOffsets, hms, hδc, hev2]
    · obtain ⟨δc, hδc, hbal⟩ := (visit_events_aux child.size).1 child le_rfl true (d - 1)
        child.meta ⟨st2.fields, st2.body ++ [vo], st.events⟩
      refine ⟨δc, hbal, ?_⟩
      rw [visit_listA]
      simp [hd', hbig, hpv, hoff, getZeroBasedValueOffsets, hms, hδc, hev2]

theorem fslA_slice_events (m : ArrMeta) (vo : Option Buffer) (offs : List Int)
    (child : Arr) (d : Int) (st : VState)
    (hd : 0 < d) (hnn : m.nullN = 0) (hoff : m.offset = 0) :
    ∃ δ : List Ev,
      δ.count Ev.snew = δ.count Ev.srel ∧
      (visit true d m (Arr.fslA m vo offs child) st).2.events = st.events ++
        (if listMustSlice vo offs m.len child.meta.len then
          Ev.snew :: (δ ++ [Ev.srel]) else δ) := by
  have hd' : ¬ d ≤ 0 := by omega
  have hbig : ¬(true = false ∧ maxInt32 < m.len) := by simp
  rcases hpv : pushValidity m
      ⟨st.fields ++ [⟨(m.len : Int), (m.nullN : Int), 0⟩], st.body, st.events⟩
      with e | st2
  · exfalso
    simp [pushValidity, hnn] at hpv
  · have hev2 := pushValidity_events _ _ _ hpv
    by_cases hms : listMustSlice vo offs m.len child.meta.len = true
    · obtain ⟨δc, hδc, hbal⟩ := (visit_events_aux child.size).1 child le_rfl true (d - 1)
        (sliceMeta child.meta (listValuesOffset vo offs) (listValuesLength vo offs m.len))
        ⟨st2.fields, st2.body ++ [vo], st.events ++ [Ev.snew]⟩
      refine ⟨δc, hbal, ?_⟩
      rw [visit_fslA]
      simp [hd', hbig, hpv, hoff, getZeroBasedValueOffsets, hms, hδc, hev2]
    · obtain ⟨δc, hδc, hbal⟩ := (visit_events_aux child.size).1 child le_rfl true (d - 1)
        child.meta ⟨st2.fields, st2.body ++ [vo], st.events⟩
      refine ⟨δc, hbal, ?_⟩
      rw [visit_fslA]
      simp [hd', hbig, hpv, hoff, getZeroBasedValueOffsets, hms, hδc, hev2]

/-- C3 (amended): for List and FixedSizeList nodes the child values array
is re-sliced before the recursive visit exactly when the source condition
`len(arr.Offsets()) != 0 || values_length < values.Len()` holds — i.e.
whenever the offsets slice is non-empty OR the designated range is shorter
than the child's full length, which re-slices even a full-range child —
and the temporary slice is released immediately after the recursive visit
returns, on success and failure alike (the event log gains exactly a
balanced `snew then srel` bracket around the child's own balanced events);
moreover every visit leaves a balanced slice event log. -/
theorem listSliceLifecycle_spec :
    (∀ (m : ArrMeta) (vo : Option Buffer) (offs : List Int) (child : Arr)
        (d : Int) (st : VState),
      0 < d → m.nullN = 0 → m.offset = 0 →
      ∃ (δ : List Ev) (r : Except Err Unit) (st' : VState),
        visit true d m (Arr.listA m vo offs child) st = (r, st') ∧
        δ.count Ev.snew = δ.count Ev.srel ∧
        st'.events = st.events ++
          (if listMustSlice vo offs m.len child.meta.len then
            Ev.snew :: (δ ++ [Ev.srel]) else δ)) ∧
    (∀ (m : ArrMeta) (vo : Option Buffer) (offs : List Int) (child : Arr)
        (d : Int) (st : VState),
      0 < d → m.nullN = 0 → m.offset = 0 →
      ∃ (δ : List Ev) (r : Except Err Unit) (st' : VState),
        visit true d m (Arr.fslA m vo offs child) st = (r, st') ∧
        δ.count Ev.snew = δ.count Ev.srel ∧
        st'.events = st.events ++
          (if listMustSlice vo offs m.len child.meta.len then
            Ev.snew :: (δ ++ [Ev.srel]) else δ)) ∧
    (∀ (a : Arr) (a64 : Bool) (d : Int) (m : ArrMeta) (st : VState),
      ∃ δ : List Ev, (visit a64 d m a st).2.events = st.events ++ δ ∧
        δ.count Ev.snew = δ.count Ev.srel) := by
  refine ⟨?_, ?_, ?_⟩
  · intro m vo offs child d st hd hnn hoff
    obtain ⟨δ, hbal, hev⟩ := listA_slice_events m vo offs child d st hd hnn hoff
    exact ⟨δ, _, _, rfl, hbal, hev⟩
  · intro m vo offs child d st hd hnn hoff
    obtain ⟨δ, hbal, hev⟩ := fslA_slice_events m vo offs child d st hd hnn hoff
    exact ⟨δ, _, _, rfl, hbal, hev⟩
  · intro a a64 d m st
    exact (visit_events_aux a.size).1 a le_rfl a64 d m st

/-- Witness for C3's amended statement on a concrete list node. -/
theorem listSliceLifecycle_witness :
    ∃ (δ : List Ev) (r : Except Err Unit) (st' : VState),
      visit true 64 ⟨1, 0, 0, none⟩
        (Arr.listA ⟨1, 0, 0, none⟩ (some ⟨7, 8⟩) [0, 2]
          (Arr.fixedA ⟨2, 0, 0, none⟩ 32 (some ⟨5, 8⟩))) ⟨[], [], []⟩ = (r, st') ∧
      δ.count Ev.snew = δ.count Ev.srel ∧
      st'.events = ([] : List Ev) ++
        (if listMustSlice (some ⟨7, 8⟩) [0, 2] 1
            (Arr.fixedA ⟨2, 0, 0, none⟩ 32 (some ⟨5, 8⟩)).meta.len then
          Ev.snew :: (δ ++ [Ev.srel]) else δ) :=
  listSliceLifecycle_spec.1 ⟨1, 0, 0, none⟩ (some ⟨7, 8⟩) [0, 2]
    (Arr.fixedA ⟨2, 0, 0, none⟩ 32 (some ⟨5, 8⟩)) 64 ⟨[], [], []⟩
    (by decide) rfl rfl

/-- C3 (counterexample to the claim as stated): a list node whose offsets
designate the child's full range — not a strict sub-range — is still
re-sliced by the code, because the condition tests `len(arr.Offsets()) != 0`
rather than strictness of the sub-range. -/
theorem listSlice_fullRange_sliced :
    (visit true 64 ⟨1, 0, 0, none⟩
      (Arr.listA ⟨1, 0, 0, none⟩ (some ⟨7, 8⟩) [0, 2]
        (Arr.fixedA ⟨2, 0, 0, none⟩ 32 (some ⟨5, 8⟩))) ⟨[], [], []⟩).2.events =
      [Ev.snew, Ev.srel] ∧
    ¬(listValuesOffset (some ⟨7, 8⟩) [0, 2] ≠ 0 ∨
      listValuesLength (some ⟨7, 8⟩) [0, 2] 1 <
        ((Arr.fixedA ⟨2, 0, 0, none⟩ 32 (some ⟨5, 8⟩)).meta.len : Int)) :=
  ⟨rfl, by decide⟩

theorem nestDepthList_lt (as : List Arr) (k : Int) (hk : 0 ≤ k)
    (h : k < (Arr.nestDepthList as : Int)) :
    ∃ a ∈ as, k < (a.nestDepth : Int) := by
  induction as with
  | nil =>
    simp [Arr.nestDepthList] at h
    omega
  | cons a rest ih =>
    simp only [Arr.nestDepthList, Nat.cast_max, lt_max_iff] at h
    rcases h with h | h
    · exact ⟨a, List.mem_cons_self a rest, h⟩
    · obtain ⟨b, hb, hbl⟩ := ih h
      exact ⟨b, List.mem_cons_of_mem a hb, hbl⟩

theorem visit_structA (a64 : Bool) (d : Int) (m ma : ArrMeta)
    (children : List Arr) (st : VState) :
    visit a64 d m (Arr.structA ma children) st =
      if d ≤ 0 then (.error .maxRecursion, st)
      else if a64 = false ∧ maxInt32 < m.len then (.error .bigArray, st)
      else
        let st1 : VState :=
          { st with fields := st.fields ++ [⟨(m.len : Int), (m.nullN : Int), 0⟩] }
        match pushValidity m st1 with
        | .error e => (.error e, st1)
        | .ok st2 => visitChildren a64 (d - 1) children st2 := by
  conv_lhs => rw [visit]

theorem visitChildren_cons (a64 : Bool) (d : Int) (a : Arr) (rest : List Arr)
    (st : VState) :
    visitChildren a64 d (a :: rest) st =
      match (visit a64 d a.meta a st).1 with
      | .error e => (.error e, (visit a64 d a.meta a st).2)
      | .ok _ => visitChildren a64 d rest (visit a64 d a.meta a st).2 := by
  conv_lhs => rw [visitChildren]

set_option maxRecDepth 8000 in
theorem visit_depth_aux : ∀ n : Nat,
    (∀ a : Arr, a.size ≤ n → ∀ (a64 : Bool) (d : Int) (m : ArrMeta) (st : VState),
      (d : Int) < (a.nestDepth : Int) → (visit a64 d m a st).1 ≠ .ok ()) ∧
    (∀ as : List Arr, Arr.sizeList as ≤ n → ∀ (a64 : Bool) (d : Int) (st : VState),
      (∃ a ∈ as, (d : Int) < (a.nestDepth : Int)) →
      (visitChildren a64 d as st).1 ≠ .ok ()) := by
  intro n
  induction n with
  | zero =>
    constructor
    · intro a hsize
      have := Arr.size_pos a
      omega
    · intro as hsize a64 d st hex
      rw [Arr.sizeList_nil_of_le_zero hsize] at hex
      simp at hex
  | succ n ih =>
    constructor
    · intro a hsize a64 d m st hlt
      by_cases hd : d ≤ 0
      · cases a <;> simp [visit, hd]
      · by_cases hbig : a64 = false ∧ maxInt32 < m.len
        · cases a <;> simp [visit, hd, hbig]
        · rcases hpv : pushValidity m
            { st with fields := st.fields ++ [⟨(m.len : Int), (m.nullN : Int), 0⟩] }
            with e | st2
          · cases a <;> simp [visit, hd, hbig, hpv]
          · cases a with
            | nullA ma => simp [Arr.nestDepth] at hlt; omega
            | boolA ma values => simp [Arr.nestDepth] at hlt; omega
            | fixedA ma bw values => simp [Arr.nestDepth] at hlt; omega
            | structA ma children =>
              have hcs : Arr.sizeList children ≤ n := by
                simp [Arr.size] at hsize; omega
              have hlt' : (d - 1 : Int) < (Arr.nestDepthList children : Int) := by
                simp only [Arr.nestDepth, Nat.cast_add, Nat.cast_one] at hlt
                omega
              have hex := nestDepthList_lt children (d - 1) (by omega) hlt'
              have hchild := ih.2 children hcs a64 (d - 1) st2 hex
              simpa [visit, hd, hbig, hpv] using hchild
            | listA ma vo offs child =>
              have hcs : child.size ≤ n := by
                simp [Arr.size] at hsize; omega
              have hlt' : (d - 1 : Int) < (child.nestDepth : Int) := by
                simp only [Arr.nestDepth, Nat.cast_add, Nat.cast_one] at hlt
                omega
              rw [visit_listA]
              rcases hz : getZeroBasedValueOffsets m.offset vo with e | voffsets
              · simp [hd, hbig, hpv, hz]
              · by_cases hms : listMustSlice voffsets offs m.len child.meta.len = true
                · have hchild := ih.1 child hcs a64 (d - 1)
                    (sliceMeta child.meta (listValuesOffset voffsets offs)
                      (listValuesLength voffsets offs m.len))
                    ⟨st2.fields, st2.body ++ [voffsets], st2.events ++ [Ev.snew]⟩ hlt'
                  simpa [hd, hbig, hpv, hz, hms] using hchild
                · have hchild := ih.1 child hcs a64 (d - 1) child.meta
                    ⟨st2.fields, st2.body ++ [voffsets], st2.events⟩ hlt'
                  simpa [hd, hbig, hpv, hz, hms] using hchild
            | fslA ma vo offs child =>
              have hcs : child.size ≤ n := by
                simp [Arr.size] at hsize; omega
              have hlt' : (d - 1 : Int) < (child.nestDepth : Int) := by
                simp only [Arr.nestDepth, Nat.cast_add, Nat.cast_one] at hlt
                omega
              rw [visit_fslA]
              rcases hz : getZeroBasedValueOffsets m.offset vo with e | voffsets
              · simp [hd, hbig, hpv, hz]
              · by_cases hms : listMustSlice voffsets offs m.len child.meta.len = true
                · have hchild := ih.1 child hcs a64 (d - 1)
                    (sliceMeta child.meta (listValuesOffset voffsets offs)
                      (listValuesLength voffsets offs m.len))
                    ⟨st2.fields, st2.body ++ [voffsets], st2.events ++ [Ev.snew]⟩ hlt'
                  simpa [hd, hbig, hpv, hz, hms] using hchild
                · have hchild := ih.1 child hcs a64 (d - 1) child.meta
                    ⟨st2.fields, st2.body ++ [voffsets], st2.events⟩ hlt'
                  simpa [hd, hbig, hpv, hz, hms] using hchild
    · intro as hsize a64 d st hex
      cases as with
      | nil => simp at hex
      | cons a rest =>
        have hsz : a.size ≤ n ∧ Arr.sizeList rest ≤ n := by
          simp [Arr.sizeList] at hsize
          omega
        rw [visitChildren_cons]
        rcases hr : (visit a64 d a.meta a st).1 with e | u
        · simp
        · rcases hex with ⟨b, hb, hbl⟩
          rcases List.mem_cons.1 hb with hba | hbr
          · subst hba
            cases u
            exact absurd hr (ih.1 b hsz.1 a64 d b.meta st hbl)
          · have := ih.2 rest hsz.2 a64 d (visit a64 d a.meta a st).2 ⟨b, hbr, hbl⟩
            simpa using this

theorem structNest_maxRecursion : ∀ (n : Nat) (d : Int) (a64 : Bool) (st : VState),
    d ≤ (n : Int) →
    (visit a64 d (structNest n).meta (structNest n) st).1 = .error .maxRecursion := by
  intro n
  induction n with
  | zero =>
    intro d a64 st h
    have hd : d ≤ 0 := by exact_mod_cast h
    simp [structNest, visit, hd]
  | succ k ih =>
    intro d a64 st h
    by_cases hd : d ≤ 0
    · simp [structNest, visit, hd]
    · have hle : d - 1 ≤ (k : Int) := by push_cast at h ⊢; omega
      have hstep : ∀ st' : VState,
          (visitChildren a64 (d - 1) [structNest k] st').1 = .error .maxRecursion := by
        intro st'
        rw [visitChildren_cons, ih (d - 1) a64 st' hle]
      show (visit a64 d (structNest (k + 1)).meta (structNest (k + 1)) st).1 =
        .error .maxRecursion
      rw [show structNest (k + 1) = Arr.structA ⟨0, 0, 0, none⟩ [structNest k] from rfl]
      rw [visit_structA, if_neg hd]
      simp [Arr.meta, pushValidity, maxInt32, hstep]

theorem recordEncode_deep_fails (a64 : Bool) (maxd so : Int) (cols : List Arr)
    (h : ∃ c ∈ cols, maxd < (c.nestDepth : Int)) :
    (recordEncode a64 maxd so cols).res ≠ .ok () := by
  have hvc := (visit_depth_aux (Arr.sizeList cols)).2 cols le_rfl a64 maxd ⟨[], [], []⟩ h
  rcases hv : (visitChildren a64 maxd cols ⟨[], [], []⟩).1 with e | u
  · rw [recordEncode_eq_err a64 maxd so cols e hv]
    simp
  · cases u
    exact absurd hv hvc

theorem writeEncodeFail_releases (w : WState) (s : Nat) (cols : List Arr) (e : Err)
    (hs : w.started = true) (hmatch : s = w.schema)
    (he : (recordEncode true kMaxNestingDepth 0 cols).res = .error e) :
    writerWrite w (some s) cols =
      ⟨.error e, w,
       some ((recordEncode true kMaxNestingDepth 0 cols).st.body.filterMap id)⟩ := by
  rw [writerWrite, if_pos hs]
  simp [writerWriteStarted, hmatch, he]

/-- C7: the depth budget is checked on entry — any visit with an exhausted
budget returns `MaxRecursionExceeded`; a struct-of-struct nest deeper than
the budget always returns `MaxRecursionExceeded`; any record containing a
column nested deeper than the configured maximum depth fails to encode;
and when the encode inside `Writer.Write` fails, the deferred payload
release frees exactly the retained (non-nil) body buffers of the partial
payload while the sink receives nothing. -/
theorem maxDepth_spec :
    (∀ (a64 : Bool) (d : Int) (m : ArrMeta) (a : Arr) (st : VState), d ≤ 0 →
      (visit a64 d m a st).1 = .error .maxRecursion) ∧
    (∀ (n : Nat) (d : Int) (a64 : Bool) (st : VState), d ≤ (n : Int) →
      (visit a64 d (structNest n).meta (structNest n) st).1 = .error .maxRecursion) ∧
    (∀ (a64 : Bool) (maxd so : Int) (cols : List Arr),
      (∃ c ∈ cols, maxd < (c.nestDepth : Int)) →
      (recordEncode a64 maxd so cols).res ≠ .ok ()) ∧
    (∀ (w : WState) (s : Nat) (cols : List Arr) (e : Err),
      w.started = true → s = w.schema →
      (recordEncode true kMaxNestingDepth 0 cols).res = .error e →
      writerWrite w (some s) cols =
        ⟨.error e, w,
         some ((recordEncode true kMaxNestingDepth 0 cols).st.body.filterMap id)⟩) := by
  refine ⟨?_, structNest_maxRecursion, recordEncode_deep_fails, writeEncodeFail_releases⟩
  intro a64 d m a st hd
  cases a <;> simp [visit, hd]

/-- Witness for C7: a 3-deep struct nest against budget 1 hits
`MaxRecursionExceeded`; a concrete failing encode inside `Write` releases
the (empty) set of retained buffers and reports the encode error. -/
theorem maxDepth_witness :
    (visit true 1 (structNest 2).meta (structNest 2) ⟨[], [], []⟩).1 =
      .error .maxRecursion ∧
    writerWrite ⟨true, true, 5, []⟩ (some 5) [Arr.boolA ⟨1, 1, 0, none⟩ none] =
      ⟨.error .nilBuffer, ⟨true, true, 5, []⟩,
       some ((recordEncode true kMaxNestingDepth 0
         [Arr.boolA ⟨1, 1, 0, none⟩ none]).st.body.filterMap id)⟩ :=
  ⟨maxDepth_spec.2.1 2 1 true ⟨[], [], []⟩ (by decide),
   maxDepth_spec.2.2.2 ⟨true, true, 5, []⟩ 5 [Arr.boolA ⟨1, 1, 0, none⟩ none]
     .nilBuffer rfl rfl rfl⟩

end ArrowIPC

